import Mathlib

/-!
Verification development for the TranscriptPolish transcript processing and
validation pipeline (client/src/lib/transcript-processor.ts and
client/src/lib/validation-rules.ts), shallowly embedded over `List Char`.

Each regular expression of the source is embedded as an executable matcher
implementing exactly the JavaScript semantics it relies on (word boundaries,
ordered alternation with backtracking, greedy quantifiers, global
left-to-right non-overlapping replacement over the original string).
-/

namespace TranscriptPolish

/-- JavaScript `\w` word character: `[A-Za-z0-9_]`. -/
def wordChar (c : Char) : Bool :=
  (decide ('A' ≤ c) && decide (c ≤ 'Z')) || (decide ('a' ≤ c) && decide (c ≤ 'z')) ||
  (decide ('0' ≤ c) && decide (c ≤ '9')) || decide (c = '_')

/-- Word-character test on an optional character; `none` (string edge) is non-word. -/
def wordOpt : Option Char → Bool
  | none => false
  | some c => wordChar c

/-- JavaScript `\s` whitespace (the code points occurring in this code base). -/
def jsWs (c : Char) : Bool :=
  decide (c = ' ') || decide (c = '\t') || decide (c = '\n') || decide (c = '\r') ||
  decide (c = '\x0b') || decide (c = '\x0c')

/-- ASCII decimal digit, JavaScript `\d`. -/
def digitChar (c : Char) : Bool := decide ('0' ≤ c) && decide (c ≤ '9')

/-- ASCII uppercase letter, the class `[A-Z]`. -/
def upperChar (c : Char) : Bool := decide ('A' ≤ c) && decide (c ≤ 'Z')

/-- The class `[A-Z0-9]` used by the validator's speaker-label pattern. -/
def upperDigitChar (c : Char) : Bool := upperChar c || digitChar c

/-- ASCII lowercase fold, as used by the regex `i` flag on the ASCII patterns here. -/
def lowerC (c : Char) : Char :=
  if upperChar c then Char.ofNat (c.toNat + 32) else c

/-- Length of the maximal prefix of `s` whose characters satisfy `p`
(greedy run of a character class). -/
def takeRun (p : Char → Bool) : List Char → Nat
  | [] => 0
  | c :: rest => if p c then takeRun p rest + 1 else 0

/-- Exact (case-sensitive) literal prefix test. -/
def startsL (pat : List Char) (s : List Char) : Bool :=
  match pat, s with
  | [], _ => true
  | _ :: _, [] => false
  | p :: ps, c :: cs => decide (p = c) && startsL ps cs

/-- Case-insensitive literal prefix test (regex `i` flag over ASCII). -/
def ciStartsL (pat : List Char) (s : List Char) : Bool :=
  match pat, s with
  | [], _ => true
  | _ :: _, [] => false
  | p :: ps, c :: cs => decide (lowerC p = lowerC c) && ciStartsL ps cs

/-- Substring containment (JavaScript `String.prototype.includes`). -/
def containsL (pat : List Char) : List Char → Bool
  | [] => startsL pat []
  | c :: rest => startsL pat (c :: rest) || containsL pat rest

/-- Holds (`true`) when some suffix position of the text satisfies `f`, which receives
the character preceding that position (`none` at the start) and the suffix.
Models scanning a regex test over every start position. -/
def anyPos (f : Option Char → List Char → Bool) : Option Char → List Char → Bool
  | _, [] => false
  | prev, c :: rest => f prev (c :: rest) || anyPos f (some c) rest

/-- A matcher: given the preceding character and the current suffix, either
fails or returns the replacement text together with the number of characters
consumed (the length of the match). -/
def Matcher : Type := Option Char → List Char → Option (List Char × Nat)

/-- One global-replace scan (JavaScript `String.prototype.replace` with a `g`
pattern): left-to-right, non-overlapping, matches found against the original
text, replacements emitted into the output.  Returns the rewritten text and
the number of matches, i.e. `(s.replace(re, rep), (s.match(re) || []).length)`.
Fuel is the remaining length; every match consumes at least one character. -/
def gScan (m : Matcher) : Nat → Option Char → List Char → List Char × Nat
  | 0, _, s => (s, 0)
  | _ + 1, prev, [] =>
    let _ := prev
    ([], 0)
  | fuel + 1, prev, c :: rest =>
    match m prev (c :: rest) with
    | some (rep, n) =>
      if n = 0 then
        let (t, k) := gScan m fuel (some c) rest
        (c :: t, k)
      else
        let (t, k) := gScan m fuel ((c :: rest).take n).getLast? ((c :: rest).drop n)
        (rep ++ t, k + 1)
    | none =>
      let (t, k) := gScan m fuel (some c) rest
      (c :: t, k)

/-- Run a matcher globally over a whole text. -/
def runScan (m : Matcher) (s : List Char) : List Char × Nat :=
  gScan m s.length none s

/-- Matcher for a word-bounded alternation `\b(alt1|alt2|…)\b` whose
alternatives begin and end with word characters, with a replacement computed
from the matched text.  `ci` selects the `i` flag.  Alternatives are tried in
regex order (ordered alternation with backtracking over the trailing `\b`). -/
def wordAltMatch (ci : Bool) (alts : List (List Char)) (mkRep : List Char → List Char) :
    Matcher := fun prev s =>
  if wordOpt prev then none
  else
    alts.findSome? fun a =>
      if (if ci then ciStartsL a s else startsL a s) && !wordOpt (s.get? a.length) then
        some (mkRep (s.take a.length), a.length)
      else none

/-- Matcher for `\n{3,}` → `"\n\n"` (rules `clean_multiple_newlines_pre` and
`clean_multiple_newlines`). -/
def nl3Match : Matcher := fun _ s =>
  let k := takeRun (fun c => decide (c = '\n')) s
  if 3 ≤ k then some (['\n', '\n'], k) else none

/-- Matcher for `\bMh\b` → `"Mh-Mh"` (rule `discourse_markers`, case-sensitive). -/
def discourseMatch : Matcher :=
  wordAltMatch false [('M' :: 'h' :: [])] (fun _ => ("Mh-Mh").data)

/-- Matcher for `\b(mm-?hm|mhm|mmm|hmm)\b` (i) → `"Mmhm"`; the `-?` expands to
the two candidates `mm-hm` (greedy, first) and `mmhm`. -/
def mmhmMatch : Matcher :=
  wordAltMatch true
    [("mm-hm").data, ("mmhm").data, ("mhm").data, ("mmm").data, ("hmm").data]
    (fun _ => ("Mmhm").data)

/-- Matcher for `\b(uh|uhh|um|umm)\b` (i) → `"Uh"`. -/
def uhMatch : Matcher :=
  wordAltMatch true [("uh").data, ("uhh").data, ("um").data, ("umm").data]
    (fun _ => ("Uh").data)

/-- Matcher for `\b(yeah|yah|ya)\b` (i) → `"Yeah"`. -/
def yeahMatch : Matcher :=
  wordAltMatch true [("yeah").data, ("yah").data, ("ya").data] (fun _ => ("Yeah").data)

/-- The replacement callback of `spell_numbers_1_10`:
`match => numbers[parseInt(match) - 1]`. -/
def spellNumber (matched : List Char) : List Char :=
  if matched = ("1").data then ("one").data
  else if matched = ("2").data then ("two").data
  else if matched = ("3").data then ("three").data
  else if matched = ("4").data then ("four").data
  else if matched = ("5").data then ("five").data
  else if matched = ("6").data then ("six").data
  else if matched = ("7").data then ("seven").data
  else if matched = ("8").data then ("eight").data
  else if matched = ("9").data then ("nine").data
  else ("ten").data

/-- Matcher for `\b(1|2|3|4|5|6|7|8|9|10)\b` with the spelling callback. -/
def spellNumbersMatch : Matcher :=
  wordAltMatch false
    [("1").data, ("2").data, ("3").data, ("4").data, ("5").data,
     ("6").data, ("7").data, ("8").data, ("9").data, ("10").data]
    spellNumber

/-- The four ordinal suffixes, matched case-sensitively by `(st|nd|rd|th)`. -/
def ordinalSuffixes : List (List Char) :=
  [("st").data, ("nd").data, ("rd").data, ("th").data]

/-- Matcher for `\b(\d+)(st|nd|rd|th)\b` → `"$1"` (rule `remove_date_ordinals`).
The greedy `\d+` cannot usefully backtrack (the suffixes contain no digits),
so the maximal digit run is the only candidate. -/
def ordinalRuleMatch : Matcher := fun prev s =>
  if wordOpt prev then none
  else
    let k := takeRun digitChar s
    if k = 0 then none
    else
      let suf := (s.drop k).take 2
      if ordinalSuffixes.contains suf && !wordOpt (s.get? (k + 2)) then
        some (s.take k, k + 2)
      else none

/-- The am/pm alternation `(a\.?m\.?|p\.?m\.?)` expanded into its backtracking
candidate order: each optional dot is tried greedily (present first). -/
def ampmCandidates : List (List Char) :=
  [("a.m.").data, ("a.m").data, ("am.").data, ("am").data,
   ("p.m.").data, ("p.m").data, ("pm.").data, ("pm").data]

/-- A `\b` between the last character of a candidate and the following
character: true iff exactly one side is a word character. -/
def boundaryAfter (lastC : Char) (next : Option Char) : Bool :=
  wordChar lastC != wordOpt next

/-- Matcher for `\b(\d{1,2}):(\d{2})\s*(a\.?m\.?|p\.?m\.?)\b` (i) →
`"$1:$2 $3"` (rule `time_format`).  `\d{1,2}` is greedy (two digits tried
first), `\s*` is a maximal whitespace run (no useful backtracking: the next
token starts with a letter). -/
def timeMatch : Matcher := fun prev s =>
  if wordOpt prev then none
  else
    [2, 1].findSome? fun d =>
      let h := s.take d
      if h.length = d && h.all digitChar && decide (s.get? d = some ':') then
        let mins := (s.drop (d + 1)).take 2
        if mins.length = 2 && mins.all digitChar then
          let wsStart := d + 3
          let wsLen := takeRun jsWs (s.drop wsStart)
          let rest := s.drop (wsStart + wsLen)
          ampmCandidates.findSome? fun a =>
            if ciStartsL a rest &&
                (match a.getLast? with
                 | some lc => boundaryAfter lc (rest.get? a.length)
                 | none => false) then
              some (h ++ ':' :: mins ++ ' ' :: rest.take a.length,
                    wsStart + wsLen + a.length)
            else none
        else none
      else none

/-- Matcher for `\b(but|and|so|well)\s*-{2,}\s*` (i) → `"$1—"`
(rule `interruption_markers`; no trailing `\b` after the group). -/
def interruptionMatch : Matcher := fun prev s =>
  if wordOpt prev then none
  else
    [("but").data, ("and").data, ("so").data, ("well").data].findSome? fun a =>
      if ciStartsL a s then
        let ws1 := takeRun jsWs (s.drop a.length)
        let dashes := takeRun (fun c => decide (c = '-')) (s.drop (a.length + ws1))
        if 2 ≤ dashes then
          let ws2 := takeRun jsWs (s.drop (a.length + ws1 + dashes))
          some (s.take a.length ++ ['—'], a.length + ws1 + dashes + ws2)
        else none
      else none

/-- Matcher for `-{2,}` → `"—"` (rule `multiple_dashes`). -/
def dashesMatch : Matcher := fun _ s =>
  let k := takeRun (fun c => decide (c = '-')) s
  if 2 ≤ k then some (['—'], k) else none

/-- Matcher for `\s*<ch>\s*` → `"<ch> "` (rules `comma_spacing`,
`period_spacing`, `question_spacing`).  The leading `\s*` is a maximal run
(backtracking cannot make the required punctuation char appear earlier). -/
def punctSpacingMatch (ch : Char) : Matcher := fun _ s =>
  let a := takeRun jsWs s
  if s.get? a = some ch then
    let b := takeRun jsWs (s.drop (a + 1))
    some ([ch, ' '], a + 1 + b)
  else none

/-- Collapse runs of three or more newlines to exactly two, i.e. the global
replacement `\n{3,}` → `"\n\n"`, written as a structural recursion on the
pending newline-run length (for the idempotence development). -/
def collapseEmit (k : Nat) : List Char :=
  if 3 ≤ k then ['\n', '\n'] else List.replicate k '\n'

def collapseAux (k : Nat) : List Char → List Char
  | [] => collapseEmit k
  | c :: rest =>
    if c = '\n' then collapseAux (k + 1) rest
    else collapseEmit k ++ c :: collapseAux 0 rest

def collapseNl (s : List Char) : List Char := collapseAux 0 s

/-- Number of matches of `\n{3,}` (runs of length ≥ 3). -/
def countNl3Aux (k : Nat) : List Char → Nat
  | [] => if 3 ≤ k then 1 else 0
  | c :: rest =>
    if c = '\n' then countNl3Aux (k + 1) rest
    else (if 3 ≤ k then 1 else 0) + countNl3Aux 0 rest

def countNl3 (s : List Char) : Nat := countNl3Aux 0 s

/-- The class `[ \t]` of rule `clean_trailing_spaces`. -/
def spaceTab (c : Char) : Bool := decide (c = ' ') || decide (c = '\t')

/-- A position where the multiline `$` holds: before a line terminator. -/
def lineTerm (c : Char) : Bool := decide (c = '\n') || decide (c = '\r')

/-- Strip trailing whitespace from every line: global `[ \t]+$` (m) → `""`.
`pend` is the run of space/tab characters read but not yet emitted; it is
dropped when a line terminator or the end of input follows. -/
def stripAux (pend : List Char) : List Char → List Char
  | [] => []
  | c :: rest =>
    if spaceTab c then stripAux (pend ++ [c]) rest
    else if lineTerm c then c :: stripAux [] rest
    else pend ++ c :: stripAux [] rest

def stripTS (s : List Char) : List Char := stripAux [] s

/-- Number of matches of `[ \t]+$` (m): removed runs. -/
def countTSAux (pending : Bool) : List Char → Nat
  | [] => if pending then 1 else 0
  | c :: rest =>
    if spaceTab c then countTSAux true rest
    else if lineTerm c then (if pending then 1 else 0) + countTSAux false rest
    else countTSAux false rest

def countTS (s : List Char) : Nat := countTSAux false s

/-- A processing rule of the table `LVMPD_PROCESSING_RULES`.  The regex
`pattern` and the `replacement` of the source are embedded together as `run`,
which returns the globally rewritten text and the match count — exactly
`(text.replace(pattern, replacement), (text.match(pattern) || []).length)`. -/
structure PRule where
  name : String
  description : String
  category : String
  priority : Nat
  run : List Char → List Char × Nat

/-- The ordered catalog of processing rules, in declaration order, with the
names, categories and priorities of the source table. -/
def LVMPD_PROCESSING_RULES : List PRule :=
  [{ name := "clean_multiple_newlines_pre",
     description := "Remove excessive line breaks before processing",
     category := "structure", priority := 1,
     run := fun s => (collapseNl s, countNl3 s) },
   { name := "discourse_markers",
     description := "Standardize discourse markers",
     category := "discourse", priority := 10, run := runScan discourseMatch },
   { name := "mmhm_standardization",
     description := "Standardize mmhm responses",
     category := "discourse", priority := 10, run := runScan mmhmMatch },
   { name := "uh_standardization",
     description := "Standardize uh fillers",
     category := "discourse", priority := 10, run := runScan uhMatch },
   { name := "yeah_standardization",
     description := "Standardize yeah responses",
     category := "discourse", priority := 10, run := runScan yeahMatch },
   { name := "spell_numbers_1_10",
     description := "Spell out numbers 1-10",
     category := "numbers", priority := 15, run := runScan spellNumbersMatch },
   { name := "remove_date_ordinals",
     description := "Remove ordinal suffixes from dates",
     category := "dates", priority := 15, run := runScan ordinalRuleMatch },
   { name := "time_format",
     description := "Standardize time format",
     category := "time", priority := 15, run := runScan timeMatch },
   { name := "ejaculation_correction",
     description := "Correct common mishearing",
     category := "corrections", priority := 20,
     run := runScan (wordAltMatch true [("ejaculation").data] (fun _ => ("ejaculate").data)) },
   { name := "pacific_specific_correction",
     description := "Correct pacific/specific confusion",
     category := "corrections", priority := 20,
     run := runScan (wordAltMatch true [("pacific").data] (fun _ => ("specific").data)) },
   { name := "calvary_cavalry_correction",
     description := "Correct calvary/cavalry confusion",
     category := "corrections", priority := 20,
     run := runScan (wordAltMatch true [("calvary").data] (fun _ => ("cavalry").data)) },
   { name := "could_of_correction",
     description := "Correct could of/could have",
     category := "corrections", priority := 20,
     run := runScan (wordAltMatch true [("could of").data] (fun _ => ("could have").data)) },
   { name := "should_of_correction",
     description := "Correct should of/should have",
     category := "corrections", priority := 20,
     run := runScan (wordAltMatch true [("should of").data] (fun _ => ("should have").data)) },
   { name := "would_of_correction",
     description := "Correct would of/would have",
     category := "corrections", priority := 20,
     run := runScan (wordAltMatch true [("would of").data] (fun _ => ("would have").data)) },
   { name := "clean_nonsense_doors",
     description := "Fix garbled phrases",
     category := "corrections", priority := 20,
     run := runScan (wordAltMatch true [("bump hole there has doors").data]
       (fun _ => ("bunch of doors").data)) },
   { name := "clean_nonsense_general",
     description := "Standardize unclear audio markers",
     category := "formatting", priority := 25,
     run := runScan (wordAltMatch true
       [("illegible").data, ("inaudible").data, ("unclear").data]
       (fun _ => ("[inaudible]").data)) },
   { name := "interruption_markers",
     description := "Standardize interruption markers",
     category := "formatting", priority := 25, run := runScan interruptionMatch },
   { name := "multiple_dashes",
     description := "Replace multiple dashes with em dash",
     category := "formatting", priority := 25, run := runScan dashesMatch },
   { name := "comma_spacing",
     description := "Standardize comma spacing",
     category := "punctuation", priority := 30, run := runScan (punctSpacingMatch ',') },
   { name := "period_spacing",
     description := "Standardize period spacing",
     category := "punctuation", priority := 30, run := runScan (punctSpacingMatch '.') },
   { name := "question_spacing",
     description := "Standardize question mark spacing",
     category := "punctuation", priority := 30, run := runScan (punctSpacingMatch '?') },
   { name := "cant_contraction",
     description := "Standardize can't contraction",
     category := "formatting", priority := 30,
     run := runScan (wordAltMatch true [("can't").data] (fun _ => ("can't").data)) },
   { name := "wont_contraction",
     description := "Standardize won't contraction",
     category := "formatting", priority := 30,
     run := runScan (wordAltMatch true [("won't").data] (fun _ => ("won't").data)) },
   { name := "dont_contraction",
     description := "Standardize don't contraction",
     category := "formatting", priority := 30,
     run := runScan (wordAltMatch true [("don't").data] (fun _ => ("don't").data)) },
   { name := "clean_multiple_newlines",
     description := "Remove excessive line breaks",
     category := "formatting", priority := 100,
     run := fun s => (collapseNl s, countNl3 s) },
   { name := "clean_trailing_spaces",
     description := "Remove trailing spaces",
     category := "formatting", priority := 101,
     run := fun s => (stripTS s, countTS s) }]

/-- Stable insertion of a rule after all rules of priority ≤ its own. -/
def insertStable (r : PRule) : List PRule → List PRule
  | [] => [r]
  | x :: xs => if x.priority ≤ r.priority then x :: insertStable r xs else r :: x :: xs

/-- Embeds `[...rules].sort((a, b) => a.priority - b.priority)`: a stable sort by
ascending priority (JavaScript `Array.prototype.sort` is stable), realized as
left-to-right stable insertion. -/
def sortByPriority (rules : List PRule) : List PRule :=
  rules.foldl (fun acc r => insertStable r acc) []

/-- One iteration of the rule loop of `processTranscriptContent`: count
matches against the current text; if positive, substitute; record the rule
(with its match count) only when the substitution changed the text. -/
def processStep (st : List Char × List (PRule × Nat)) (rule : PRule) :
    List Char × List (PRule × Nat) :=
  if 0 < (rule.run st.1).2 then
    ((rule.run st.1).1,
      if (rule.run st.1).1 ≠ st.1 then st.2 ++ [(rule, (rule.run st.1).2)] else st.2)
  else st

/-- The rewrite-engine loop: fold the rule list (already sorted) over the
text, yielding the rewritten text and the applied-rules ledger. -/
def applyRulesList (rules : List PRule) (content : List Char) :
    List Char × List (PRule × Nat) :=
  rules.foldl processStep (content, [])

/-- The current text of the rewrite engine just before step `i`: the result
of running the first `i` rules of the list on the content. -/
def engineTextAt (rules : List PRule) (content : List Char) (i : Nat) : List Char :=
  (applyRulesList (rules.take i) content).1

/-- The applied-rules ledger of the rewrite engine just before step `i`. -/
def engineLedgerAt (rules : List PRule) (content : List Char) (i : Nat) :
    List (PRule × Nat) :=
  (applyRulesList (rules.take i) content).2

/-- Embeds `content.split('\n')`: always at least one piece; a trailing newline
yields a trailing empty piece. -/
def splitNl : List Char → List (List Char)
  | [] => [[]]
  | c :: rest =>
    if c = '\n' then [] :: splitNl rest
    else
      match splitNl rest with
      | l :: ls => (c :: l) :: ls
      | [] => [[c]]

/-- Embeds `String.prototype.trim`. -/
def trimL (s : List Char) : List Char :=
  ((s.dropWhile jsWs).reverse.dropWhile jsWs).reverse

/-- The punctuation class `[.!?]` of the sentence-boundary lookbehind. -/
def sentencePunct (c : Char) : Bool :=
  decide (c = '.') || decide (c = '!') || decide (c = '?')

def sentencePunctOpt : Option Char → Bool
  | none => false
  | some c => sentencePunct c

/-- Embeds `content.split(/(?<=[.!?])\s+/)`: split at maximal whitespace runs whose
preceding character is `.`, `!` or `?`.  `curRev` is the piece under
construction (reversed), `inSep` whether the scan is inside a separator run,
`prev` the previous character. -/
def sentAux : List Char → List Char → Bool → Option Char → List (List Char)
  | [], curRev, inSep, _ =>
    if inSep then [curRev.reverse, []] else [curRev.reverse]
  | c :: rest, curRev, inSep, prev =>
    if inSep then
      if jsWs c then sentAux rest curRev true (some c)
      else curRev.reverse :: sentAux rest [c] false (some c)
    else
      if jsWs c && sentencePunctOpt prev then sentAux rest curRev true (some c)
      else sentAux rest (c :: curRev) false (some c)

def splitSentences (s : List Char) : List (List Char) :=
  sentAux s [] false none

/-- Embeds `trimmedLine.match(/^([A-Z]):(.*)$/)`: a single uppercase letter followed
by a colon; returns the speaker letter and the rest of the line. -/
def speakerMatch : List Char → Option (Char × List Char)
  | a :: b :: rest =>
    if upperChar a && decide (b = ':') then some (a, rest) else none
  | _ => none

/-- The five-space hanging indent. -/
def fiveSpaces : List Char := ("     ").data

/-- The body loop of `applyLVMPDStructure`: walks the lines, tracking the
previous speaker (`""` initially) and the output lines pushed so far. -/
def structAux : List (List Char) → List Char → List (List Char) → List (List Char)
  | [], _, acc => acc
  | l :: rest, prev, acc =>
    let t := trimL l
    if t = [] then structAux rest prev acc
    else
      match speakerMatch t with
      | some (sp, content) =>
        let blank : List (List Char) := if acc ≠ [] && [sp] ≠ prev then [[]] else []
        let lines :=
          if trimL content ≠ [] then
            let sentences := splitSentences (trimL content)
            (sp :: ':' :: ' ' :: sentences.headD []) ::
              ((sentences.drop 1).filter (fun sj => trimL sj ≠ [])).map
                (fun sj => fiveSpaces ++ sj)
          else [[sp, ':']]
        structAux rest [sp] (acc ++ blank ++ lines)
      | none =>
        let out :=
          if prev ≠ [] && !startsL fiveSpaces t then fiveSpaces ++ t else t
        structAux rest prev (acc ++ [out])

/-- The output lines of `applyLVMPDStructure` (its `processedLines` array). -/
def structLines (content : List Char) : List (List Char) :=
  structAux (splitNl content) [] []

/-- Embeds `lines.join('\n')`. -/
def joinNl : List (List Char) → List Char
  | [] => []
  | [l] => l
  | l :: rest => l ++ '\n' :: joinNl rest

/-- Embeds `applyLVMPDStructure(content)`. -/
def applyLVMPDStructure (content : List Char) : List Char :=
  joinNl (structLines content)

/-- Embeds `processTranscriptContent(content)`: sort the table by priority, apply
each rule while building the ledger, then apply the structural pass. -/
def processTranscriptContent (content : List Char) :
    List Char × List (PRule × Nat) :=
  let st := applyRulesList (sortByPriority LVMPD_PROCESSING_RULES) content
  (applyLVMPDStructure st.1, st.2)

/-- Detective metadata; a `none` or empty field is falsy in the source's
`!detectiveInfo?.name` guards. -/
structure DetectiveInfo where
  name : Option String
  badge : Option String
  section_ : Option String

/-- Interview metadata. -/
structure InterviewInfo where
  date : Option String
  time : Option String
  location : Option String

/-- Truthiness of an optional string field (`undefined` and `""` are falsy). -/
def truthyStr : Option String → Bool
  | none => false
  | some s => !(s == "")

/-- Embeds `String(n).padStart(2, '0')`. -/
def padStart2 (s : List Char) : List Char :=
  if 2 ≤ s.length then s else List.replicate (2 - s.length) '0' ++ s

/-- Embeds `time.replace(':', '')`: remove the first colon (string-pattern `replace`
substitutes only the first occurrence). -/
def removeFirstColon : List Char → List Char
  | [] => []
  | c :: rest => if c = ':' then rest else c :: removeFirstColon rest

/-- Embeds `generateLVMPDHeader(detectiveInfo, interviewInfo)`.  The JavaScript
`Date` parser is environment-provided; it is passed here as `jsDate`, a
function from the date string to `(getMonth(), getDate(), getFullYear())`,
so every theorem below holds for an arbitrary date environment. -/
def generateLVMPDHeader (jsDate : String → Nat × Nat × Nat)
    (detectiveInfo : DetectiveInfo) (interviewInfo : InterviewInfo) : List Char :=
  if !truthyStr detectiveInfo.name || !truthyStr detectiveInfo.badge ||
      !truthyStr detectiveInfo.section_ || !truthyStr interviewInfo.date ||
      !truthyStr interviewInfo.time then
    []
  else
    let d := jsDate (interviewInfo.date.getD (""))
    let formattedDate :=
      padStart2 (toString (d.1 + 1)).data ++ '/' :: padStart2 (toString d.2.1).data ++
        '/' :: (toString d.2.2).data
    let time24 := removeFirstColon (interviewInfo.time.getD ("")).data
    ("The following is the transcription of a tape-recorded interview conducted by DETECTIVE ").data ++
      (detectiveInfo.name.getD ("")).data ++ (", P# ").data ++
      (detectiveInfo.badge.getD ("")).data ++ (", LVMPD ").data ++
      (detectiveInfo.section_.getD ("")).data ++ (" Detail, on ").data ++
      formattedDate ++ (" at ").data ++ time24 ++ (" hours.\n\n").data

/-- Issue severity (`"error" | "warning" | "info"` in the source). -/
inductive Severity where
  | error
  | warning
  | info
deriving DecidableEq, Repr

/-- A validation issue. -/
structure ValidationIssue where
  line : Nat
  type : String
  message : String
  suggestion : Option String
  severity : Severity
deriving DecidableEq, Repr

/-- A speaker definition; the validator reads only `label`. -/
structure SpeakerDef where
  label : String
  description : String
deriving DecidableEq, Repr

/-- The validator's result. -/
structure ValidationResult where
  issues : List ValidationIssue
  score : Int
deriving DecidableEq, Repr

/-- The test `/^[A-Z0-9]+:|The following|THIS STATEMENT/.test(line)` — an
anchored uppercase/digit label prefix, or either sentinel substring anywhere
in the line.  (For the first alternative, only the maximal `[A-Z0-9]` run can
be followed by `:`, since `:` is not in the class.) -/
def testSentinel (l : List Char) : Bool :=
  (let k := takeRun upperDigitChar l
   decide (1 ≤ k) && decide (l.get? k = some ':')) ||
  containsL ("The following").data l || containsL ("THIS STATEMENT").data l

/-- Test of `\bMh\b`. -/
def testMh (l : List Char) : Bool :=
  anyPos (fun p s => !wordOpt p && startsL ("Mh").data s && !wordOpt (s.get? 2)) none l

/-- Test of `\bMh-Mh\b`. -/
def testMhMh (l : List Char) : Bool :=
  anyPos (fun p s => !wordOpt p && startsL ("Mh-Mh").data s && !wordOpt (s.get? 5)) none l

/-- The suggestion `line.replace(/\bMh\b/g, "Mh-Mh")`. -/
def mhSuggestion (l : List Char) : List Char :=
  (runScan discourseMatch l).1

/-- Test of `\b[1-9]|10\b`, which groups as `(\b[1-9])|(10\b)`: a digit 1–9
at a word boundary, or the literal `10` followed by a word boundary. -/
def testNumPat (l : List Char) : Bool :=
  anyPos
    (fun p s =>
      (!wordOpt p &&
        (match s.head? with
         | some c => decide ('1' ≤ c) && decide (c ≤ '9')
         | none => false)) ||
      (startsL ("10").data s && !wordOpt (s.get? 2)))
    none l

/-- Test of `\d+:\d+\s*(am|pm)` (i) when `strict = false`, and of
`\d+:\d+\s+(am|pm)` (i) when `strict = true` (at least one space). -/
def testTimePat (strict : Bool) (l : List Char) : Bool :=
  anyPos
    (fun _ s =>
      let d1 := takeRun digitChar s
      if 1 ≤ d1 && decide (s.get? d1 = some ':') then
        let d2 := takeRun digitChar (s.drop (d1 + 1))
        if 1 ≤ d2 then
          let ws := takeRun jsWs (s.drop (d1 + 1 + d2))
          (if strict then decide (1 ≤ ws) else true) &&
            (ciStartsL ("am").data (s.drop (d1 + 1 + d2 + ws)) ||
             ciStartsL ("pm").data (s.drop (d1 + 1 + d2 + ws)))
        else false
      else false)
    none l

/-- Test of `\d+(st|nd|rd|th)` (no word boundaries): some digit immediately
followed by an ordinal suffix. -/
def testOrdinalPat (l : List Char) : Bool :=
  anyPos
    (fun _ s =>
      (match s.head? with
       | some c => digitChar c
       | none => false) && ordinalSuffixes.contains ((s.drop 1).take 2))
    none l

/-- The suggestion `line.replace(/(\d+)(st|nd|rd|th)/g, "$1")` (unlike the
processing rule `remove_date_ordinals`, no word boundaries). -/
def ordinalSuggestionMatch : Matcher := fun _ s =>
  let k := takeRun digitChar s
  if 1 ≤ k && ordinalSuffixes.contains ((s.drop k).take 2) then
    some (s.take k, k + 2)
  else none

def ordinalSuggestion (l : List Char) : List Char :=
  (runScan ordinalSuggestionMatch l).1

/-- Test of `^[A-Z0-9]+:`. -/
def startsLabel (l : List Char) : Bool :=
  let k := takeRun upperDigitChar l
  decide (1 ≤ k) && decide (l.get? k = some ':')

/-- Test of `[.!?]$` (no `m` flag: the very end of the line). -/
def endsPunct (l : List Char) : Bool :=
  match l.getLast? with
  | some c => sentencePunct c
  | none => false

/-- Embeds `line.match(/^([A-Z0-9]+:)\s*([a-z])/)`: on success, returns the line's
suggestion `line.replace(match[0], match[1] + " " + match[2].toUpperCase())`
(the match starts at position 0, so the first occurrence of the matched
substring is the match itself). -/
def capSuggestion (l : List Char) : Option (List Char) :=
  let k := takeRun upperDigitChar l
  if 1 ≤ k && decide (l.get? k = some ':') then
    let ws := takeRun jsWs (l.drop (k + 1))
    match (l.drop (k + 1 + ws)).head? with
    | some c =>
      if decide ('a' ≤ c) && decide (c ≤ 'z') then
        some (l.take (k + 1) ++ ' ' :: Char.ofNat (c.toNat - 32) :: l.drop (k + 1 + ws + 1))
      else none
    | none => none
  else none

/-- Speaker-identification check (warning). -/
def checkSpeaker (speakers : List SpeakerDef) (l : List Char) (n : Nat) :
    List ValidationIssue :=
  if trimL l ≠ [] && !testSentinel l &&
      !(speakers.any fun sp => startsL sp.label.data l) &&
      decide (0 < (trimL l).length) then
    [{ line := n, type := "speaker_identification",
       message := "Line missing speaker identification", suggestion := none,
       severity := Severity.warning }]
  else []

/-- Discourse-marker check (info). -/
def checkDiscourse (l : List Char) (n : Nat) : List ValidationIssue :=
  if testMh l && !testMhMh l then
    [{ line := n, type := "discourse_marker",
       message := "Discourse marker should be standardized",
       suggestion := some (String.mk (mhSuggestion l)),
       severity := Severity.info }]
  else []

/-- Number-format check (info). -/
def checkNumber (l : List Char) (n : Nat) : List ValidationIssue :=
  if testNumPat l then
    [{ line := n, type := "number_format",
       message := "Numbers 1-10 should be spelled out", suggestion := none,
       severity := Severity.info }]
  else []

/-- Time-format check (warning). -/
def checkTime (l : List Char) (n : Nat) : List ValidationIssue :=
  if testTimePat false l && !testTimePat true l then
    [{ line := n, type := "time_format",
       message := "Time format should include space before am/pm",
       suggestion := none, severity := Severity.warning }]
  else []

/-- Date-ordinal check (info). -/
def checkOrdinal (l : List Char) (n : Nat) : List ValidationIssue :=
  if testOrdinalPat l then
    [{ line := n, type := "date_format",
       message := "Remove ordinal suffixes from dates",
       suggestion := some (String.mk (ordinalSuggestion l)),
       severity := Severity.info }]
  else []

/-- End-punctuation check (warning). -/
def checkPunct (l : List Char) (n : Nat) : List ValidationIssue :=
  if startsLabel l && decide (10 < l.length) && !endsPunct l then
    [{ line := n, type := "punctuation",
       message := "Statement should end with punctuation", suggestion := none,
       severity := Severity.warning }]
  else []

/-- Capitalization check (warning). -/
def checkCap (l : List Char) (n : Nat) : List ValidationIssue :=
  match capSuggestion l with
  | some sug =>
    [{ line := n, type := "capitalization",
       message := "First word after speaker label should be capitalized",
       suggestion := some (String.mk sug), severity := Severity.warning }]
  | none => []

/-- All issues pushed for one line, in the source's check order. -/
def lineIssues (speakers : List SpeakerDef) (l : List Char) (n : Nat) :
    List ValidationIssue :=
  checkSpeaker speakers l n ++ checkDiscourse l n ++ checkNumber l n ++
    checkTime l n ++ checkOrdinal l n ++ checkPunct l n ++ checkCap l n

/-- The `lines.forEach` loop: line numbers are 1-based positions. -/
def perLineAux (speakers : List SpeakerDef) : Nat → List (List Char) → List ValidationIssue
  | _, [] => []
  | n, l :: rest => lineIssues speakers l n ++ perLineAux speakers (n + 1) rest

/-- The literal header marker substring. -/
def headerMarker : List Char :=
  ("The following is the transcription of a tape-recorded interview").data

/-- The literal footer marker substring. -/
def footerMarker : List Char := ("THIS STATEMENT WAS COMPLETED AT").data

/-- The document-level header/footer checks, pushed after the line loop. -/
def docIssues (content : List Char) (lines : List (List Char)) : List ValidationIssue :=
  (if !containsL headerMarker content then
    [{ line := 1, type := "header", message := "Missing LVMPD header",
       suggestion := none, severity := Severity.error }]
   else []) ++
  (if !containsL footerMarker content then
    [{ line := lines.length, type := "footer", message := "Missing LVMPD footer",
       suggestion := none, severity := Severity.error }]
   else [])

/-- The number of issues of a given severity. -/
def countSev (sev : Severity) (issues : List ValidationIssue) : Nat :=
  (issues.filter fun is => is.severity == sev).length

/-- Embeds `Math.max(0, 100 - errorCount*15 - warningCount*8 - infoCount*3)`. -/
def scoreFormula (e w i : Nat) : Int :=
  max 0 (100 - 15 * (e : Int) - 8 * (w : Int) - 3 * (i : Int))

/-- Embeds `Math.round` on the (always integral) score value. -/
def mathRound (z : Int) : Int := z

/-- Embeds `validateTranscript(content, speakers)`. -/
def validateTranscript (content : List Char) (speakers : List SpeakerDef) :
    ValidationResult :=
  let lines := splitNl content
  let issues := perLineAux speakers 1 lines ++ docIssues content lines
  { issues := issues
    score := mathRound (scoreFormula (countSev Severity.error issues)
      (countSev Severity.warning issues) (countSev Severity.info issues)) }

/-! ### Definitions supporting the claim theorems -/

/-- The input line of the round-trip scenario. -/
def c1Input : String := "Q: Mh, I was there at 3:00pm on the 2nd."

/-- Holds (`true`) iff the text contains a run of three or more newlines
(a match of `\n{3,}`). -/
def hasRun3 : List Char → Bool
  | [] => false
  | c :: rest => (decide (c = '\n') && startsL ['\n', '\n'] rest) || hasRun3 rest

/-- Holds (`true`) iff some space/tab character is immediately followed by a line
terminator or ends the text (a match of `[ \t]+$` in multiline mode). -/
def hasTrailWS : List Char → Bool
  | [] => false
  | c :: rest =>
    (spaceTab c &&
      (match rest with
       | [] => true
       | d :: _ => lineTerm d)) || hasTrailWS rest

/-- The witness text on which the composite cleanup is not idempotent. -/
def c9Input : String := "a\n \n \nb"

/-- The portion of the header literal that follows the marker substring. -/
def headerAfterMarker : String := " conducted by DETECTIVE "

/-- A date environment used to instantiate the header theorem. -/
def c4DateFn : String → Nat × Nat × Nat := fun _ => (2, 15, 2024)

/-- Complete detective metadata. -/
def c4DetFull : DetectiveInfo :=
  { name := some "J. SMITH", badge := some "1234", section_ := some "Homicide" }

/-- Detective metadata with the name missing. -/
def c4DetNoName : DetectiveInfo :=
  { name := none, badge := some "1234", section_ := some "Homicide" }

/-- Interview metadata with date and time present. -/
def c4Intv : InterviewInfo :=
  { date := some "2024-03-15", time := some "14:30", location := none }

/-- Boolean check that a list of line numbers is ascending. -/
def linesAscending : List Nat → Bool
  | [] => true
  | [_] => true
  | a :: b :: rest => decide (a ≤ b) && linesAscending (b :: rest)

/-- The validator input witnessing unsorted issue output. -/
def c5Input : String := "hello\nworld"

/-- Numeric value of a digit string. -/
def digitsVal (l : List Char) : Nat :=
  l.foldl (fun acc c => acc * 10 + (c.toNat - 48)) 0

/-- Modelled from the claim's wording (for refutation): the line contains a
whole-word digit token — a maximal digit run delimited by word boundaries —
whose numeric value is between 1 and 10 inclusive. -/
def hasWholeWordNum1to10 (l : List Char) : Bool :=
  anyPos
    (fun p s =>
      !wordOpt p &&
        (let k := takeRun digitChar s
         decide (1 ≤ k) && !wordOpt (s.get? k) &&
           decide (1 ≤ digitsVal (s.take k)) && decide (digitsVal (s.take k) ≤ 10)))
    none l

/-- The line witnessing over-flagging of numbers ≥ 11. -/
def c6Input : String := "25"

/-- The single-line input used to instantiate the C6 theorem. -/
def c6WitnessInput : String := "3"

/-- The line witnessing the exemption of unconfigured `[A-Z0-9]+:` labels. -/
def c7Input : String := "X: foo"

/-- The single-line input used to instantiate the C7 theorem. -/
def c7WitnessInput : String := "foo"

/-- The text used to instantiate the ledger theorem. -/
def c8WitnessInput : String := "Mh"

/-- The ledger produced for the witness text. -/
def c8WitnessLedger : List (PRule × Nat) :=
  (applyRulesList (sortByPriority LVMPD_PROCESSING_RULES) c8WitnessInput.data).2

/-- The claim's notion of a speaker line: a single uppercase letter followed
by a colon at the start of the line. -/
def speakerLineTest : List Char → Bool
  | a :: b :: _ => upperChar a && decide (b = ':')
  | _ => false

/-- Every blank output line is immediately followed by a speaker line
(`speakerLineTest [] = false`, so a trailing blank line also fails). -/
def okLines : List (List Char) → Bool
  | [] => true
  | l :: rest =>
    (if l = [] then speakerLineTest (rest.headD []) else true) && okLines rest

/-- No two consecutive blank lines. -/
def noTwoBlanks : List (List Char) → Bool
  | a :: b :: rest => !(decide (a = []) && decide (b = [])) && noTwoBlanks (b :: rest)
  | _ => true

set_option maxRecDepth 10000

/-! ### Claim C1 -/

/-- C1 (counterexample): applying the rewrite engine to
`"Q: Mh, I was there at 3:00pm on the 2nd."` does NOT produce
`"Q: Mh-Mh, I was there at 3:00 pm on the 2."`: the claimed output is wrong,
because the number-spelling rule fires on the `3` of `3:00pm` (the colon is a
word boundary), after which the time rule's pattern no longer matches. -/
theorem c1_roundtrip_counterexample :
    (processTranscriptContent c1Input.data).1 ≠
      ("Q: Mh-Mh, I was there at 3:00 pm on the 2.").data := by
  decide

/-- C1 (amended): applying the rewrite engine to
`"Q: Mh, I was there at 3:00pm on the 2nd."` produces exactly
`"Q: Mh-Mh, I was there at three:00pm on the 2."` — the discourse rule
rewrites `Mh` to `Mh-Mh`, the number rule rewrites the `3` of `3:00pm` to
`three` (so the time rule never matches), and the ordinal rule rewrites `2nd`
to `2` — with the rules applied in ascending (priority, declaration-order)
sequence against the cumulatively rewritten text. -/
theorem c1_roundtrip_amended :
    (processTranscriptContent c1Input.data).1 =
      ("Q: Mh-Mh, I was there at three:00pm on the 2.").data := by
  decide

/-! ### Claim C3 -/

/-- C3: validating the empty string with an empty speaker list yields exactly
a `header` error at line 1 and a `footer` error at line 1, and score 70. -/
theorem c3_empty_validate :
    validateTranscript [] [] =
      { issues :=
          [{ line := 1, type := "header", message := "Missing LVMPD header",
             suggestion := none, severity := Severity.error },
           { line := 1, type := "footer", message := "Missing LVMPD footer",
             suggestion := none, severity := Severity.error }],
        score := 70 } := by
  decide

/-! ### Claim C9: structural-cleanup idempotence -/

theorem hasRun3_cons_ne {c : Char} (t : List Char) (h : c ≠ '\n') :
    hasRun3 (c :: t) = hasRun3 t := by
  simp [hasRun3, startsL, h]

theorem hasRun3_replicate_nl_cons {j : Nat} (hj : j ≤ 2) {c : Char} (h : c ≠ '\n')
    (t : List Char) :
    hasRun3 (List.replicate j '\n' ++ c :: t) = hasRun3 (c :: t) := by
  have h' : ¬('\n' = c) := fun e => h e.symm
  interval_cases j
  · rfl
  · simp [hasRun3, startsL, h, h', hasRun3_cons_ne t h]
  · simp [hasRun3, startsL, h, h', hasRun3_cons_ne t h]

theorem collapseEmit_of_le {k : Nat} (hk : k ≤ 2) :
    collapseEmit k = List.replicate k '\n' := by
  unfold collapseEmit
  rw [if_neg (by omega)]

theorem collapseEmit_eq_replicate (k : Nat) :
    ∃ j, j ≤ 2 ∧ collapseEmit k = List.replicate j '\n' := by
  by_cases h : 3 ≤ k
  · exact ⟨2, by omega, by unfold collapseEmit; rw [if_pos h]; rfl⟩
  · exact ⟨k, by omega, collapseEmit_of_le (by omega)⟩

/-- The collapse pass leaves no run of three or more newlines. -/
theorem hasRun3_collapseAux (s : List Char) : ∀ k, hasRun3 (collapseAux k s) = false := by
  induction s with
  | nil =>
    intro k
    show hasRun3 (collapseEmit k) = false
    obtain ⟨j, hj, hrep⟩ := collapseEmit_eq_replicate k
    rw [hrep]
    interval_cases j <;> decide
  | cons c rest ih =>
    intro k
    by_cases hc : c = '\n'
    · subst hc
      show hasRun3 (collapseAux (k + 1) rest) = false
      exact ih (k + 1)
    · show hasRun3 (collapseAux k (c :: rest)) = false
      unfold collapseAux
      rw [if_neg hc]
      obtain ⟨j, hj, hrep⟩ := collapseEmit_eq_replicate k
      rw [hrep, hasRun3_replicate_nl_cons hj hc, hasRun3_cons_ne _ hc]
      exact ih 0

/-- On text with no 3-newline run, the collapse pass is the identity
(stated with `k` pending newlines re-attached in front). -/
theorem collapseAux_of_no_run3 (s : List Char) :
    ∀ k, k ≤ 2 → hasRun3 (List.replicate k '\n' ++ s) = false →
      collapseAux k s = List.replicate k '\n' ++ s := by
  induction s with
  | nil =>
    intro k hk _
    show collapseEmit k = _
    simp [collapseEmit_of_le hk]
  | cons c rest ih =>
    intro k hk hclean
    by_cases hc : c = '\n'
    · subst hc
      have hrepl : List.replicate k '\n' ++ '\n' :: rest =
          List.replicate (k + 1) '\n' ++ rest := by
        simp [List.replicate_succ']
      have hk2 : k ≤ 1 := by
        by_contra hgt
        have hk2' : k = 2 := by omega
        subst hk2'
        simp [hasRun3, startsL, List.replicate] at hclean
      show collapseAux (k + 1) rest = _
      rw [hrepl] at hclean ⊢
      exact ih (k + 1) (by omega) hclean
    · show collapseAux k (c :: rest) = _
      unfold collapseAux
      rw [if_neg hc, collapseEmit_of_le hk]
      have hclean' : hasRun3 rest = false := by
        rw [hasRun3_replicate_nl_cons hk hc, hasRun3_cons_ne _ hc] at hclean
        exact hclean
      rw [ih 0 (by omega) (by simpa using hclean')]
      simp

/-- Collapsing 3+-newline runs is idempotent. -/
theorem collapseNl_idem (s : List Char) : collapseNl (collapseNl s) = collapseNl s := by
  have h := collapseAux_of_no_run3 (collapseNl s) 0 (by omega)
    (by simpa using hasRun3_collapseAux s 0)
  simpa using h

/-- Space/tab and line terminators are disjoint classes. -/
theorem spaceTab_of_lineTerm {c : Char} (h : lineTerm c = true) : spaceTab c = false := by
  rcases Bool.or_eq_true_iff.mp h with h1 | h1
  · rw [decide_eq_true_iff] at h1; subst h1; decide
  · rw [decide_eq_true_iff] at h1; subst h1; decide

theorem hasTrailWS_spaceTab_append {p : List Char} (hp : ∀ x ∈ p, spaceTab x = true)
    {c : Char} (hc : lineTerm c = false) (t : List Char) :
    hasTrailWS (p ++ c :: t) = hasTrailWS (c :: t) := by
  induction p with
  | nil => rfl
  | cons x p' ih =>
    have hx : spaceTab x = true := hp x (List.mem_cons_self x p')
    have hp' : ∀ y ∈ p', spaceTab y = true := fun y hy => hp y (List.mem_cons_of_mem x hy)
    have hhead : (match p' ++ c :: t with
        | [] => true
        | d :: _ => lineTerm d) = false := by
      rcases p' with _ | ⟨y, p''⟩
      · simpa using hc
      · have hy : spaceTab y = true := hp' y (List.mem_cons_self y p'')
        have : lineTerm y = false := by
          by_contra hterm
          rw [spaceTab_of_lineTerm (by revert hterm; cases lineTerm y <;> simp)] at hy
          exact absurd hy (by simp)
        simpa using this
    show hasTrailWS (x :: (p' ++ c :: t)) = _
    rw [show hasTrailWS (x :: (p' ++ c :: t)) =
        ((spaceTab x &&
          (match p' ++ c :: t with
           | [] => true
           | d :: _ => lineTerm d)) || hasTrailWS (p' ++ c :: t)) from rfl]
    rw [hhead, Bool.and_false, Bool.false_or]
    exact ih hp'

/-- A nonempty all-space/tab text has trailing whitespace. -/
theorem hasTrailWS_of_all_spaceTab {p : List Char} (hne : p ≠ [])
    (hp : ∀ x ∈ p, spaceTab x = true) : hasTrailWS p = true := by
  induction p with
  | nil => exact absurd rfl hne
  | cons x p' ih =>
    have hx : spaceTab x = true := hp x (List.mem_cons_self x p')
    have hp' : ∀ y ∈ p', spaceTab y = true := fun y hy => hp y (List.mem_cons_of_mem x hy)
    rcases p' with _ | ⟨y, p''⟩
    · simp [hasTrailWS, hx]
    · have hy : spaceTab y = true := hp' y (List.mem_cons_self y p'')
      have hrec := ih (by simp) hp'
      simp [hasTrailWS] at hrec ⊢
      exact Or.inr hrec

/-- All-space/tab text followed by a line terminator has trailing whitespace. -/
theorem hasTrailWS_append_lineTerm {p : List Char} (hne : p ≠ [])
    (hp : ∀ x ∈ p, spaceTab x = true) {c : Char} (hc : lineTerm c = true)
    (t : List Char) : hasTrailWS (p ++ c :: t) = true := by
  induction p with
  | nil => exact absurd rfl hne
  | cons x p' ih =>
    have hx : spaceTab x = true := hp x (List.mem_cons_self x p')
    have hp' : ∀ y ∈ p', spaceTab y = true := fun y hy => hp y (List.mem_cons_of_mem x hy)
    rcases p' with _ | ⟨y, p''⟩
    · simp [hasTrailWS, hx, hc]
    · have hrec := ih (by simp) hp'
      simp [hasTrailWS] at hrec ⊢
      tauto

/-- The strip pass leaves no trailing whitespace. -/
theorem hasTrailWS_stripAux (s : List Char) :
    ∀ pend, (∀ x ∈ pend, spaceTab x = true) → hasTrailWS (stripAux pend s) = false := by
  induction s with
  | nil => intro pend _; rfl
  | cons c rest ih =>
    intro pend hpend
    show hasTrailWS (stripAux pend (c :: rest)) = false
    unfold stripAux
    by_cases hst : spaceTab c = true
    · rw [if_pos hst]
      refine ih (pend ++ [c]) ?_
      intro x hx
      rcases List.mem_append.mp hx with h | h
      · exact hpend x h
      · simp at h; subst h; exact hst
    · rw [if_neg hst]
      by_cases hlt : lineTerm c = true
      · rw [if_pos hlt]
        have := ih [] (by simp)
        simp [hasTrailWS, Bool.eq_false_iff.mpr hst] at this ⊢
        rcases hrec : stripAux [] rest with _ | _ <;>
          simp [hrec] at this ⊢ <;> tauto
      · rw [if_neg hlt]
        rw [hasTrailWS_spaceTab_append hpend (by simpa using hlt) _]
        have := ih [] (by simp)
        simp [hasTrailWS, Bool.eq_false_iff.mpr hst] at this ⊢
        exact this

/-- On text with no trailing whitespace, the strip pass is the identity
(stated with the pending run `pend` re-attached in front). -/
theorem stripAux_of_no_trailWS (s : List Char) :
    ∀ pend, (∀ x ∈ pend, spaceTab x = true) → hasTrailWS (pend ++ s) = false →
      stripAux pend s = pend ++ s := by
  induction s with
  | nil =>
    intro pend hpend hclean
    have hpe : pend = [] := by
      by_contra hne
      rw [List.append_nil] at hclean
      rw [hasTrailWS_of_all_spaceTab hne hpend] at hclean
      exact absurd hclean (by simp)
    subst hpe; rfl
  | cons c rest ih =>
    intro pend hpend hclean
    show stripAux pend (c :: rest) = _
    unfold stripAux
    by_cases hst : spaceTab c = true
    · rw [if_pos hst]
      have hall : ∀ x ∈ pend ++ [c], spaceTab x = true := by
        intro x hx
        rcases List.mem_append.mp hx with h | h
        · exact hpend x h
        · simp at h; subst h; exact hst
      have heq : (pend ++ [c]) ++ rest = pend ++ c :: rest := by simp
      rw [ih (pend ++ [c]) hall (by rw [heq]; exact hclean), heq]
    · rw [if_neg hst]
      by_cases hlt : lineTerm c = true
      · rw [if_pos hlt]
        have hpe : pend = [] := by
          by_contra hne
          rw [hasTrailWS_append_lineTerm hne hpend hlt rest] at hclean
          exact absurd hclean (by simp)
        subst hpe
        have hclean' : hasTrailWS rest = false := by
          simp [hasTrailWS, Bool.eq_false_iff.mpr hst] at hclean
          rcases rest with _ | _ <;> simp at hclean ⊢ <;> tauto
        rw [ih [] (by simp) (by simpa using hclean')]
        rfl
      · rw [if_neg hlt]
        have hclean' : hasTrailWS rest = false := by
          rw [hasTrailWS_spaceTab_append hpend (by simpa using hlt) rest] at hclean
          simp [hasTrailWS, Bool.eq_false_iff.mpr hst] at hclean
          rcases rest with _ | _ <;> simp at hclean ⊢ <;> tauto
        rw [ih [] (by simp) (by simpa using hclean')]
        simp

/-- Stripping trailing whitespace is idempotent. -/
theorem stripTS_idem (s : List Char) : stripTS (stripTS s) = stripTS s := by
  have h := stripAux_of_no_trailWS (stripTS s) [] (by simp)
    (by simpa using hasTrailWS_stripAux s [] (by simp))
  simpa using h

/-- C9 (counterexample): applying the collapse-3+-newlines rule followed by
the strip-trailing-whitespace rule twice does NOT equal applying the pair
once: on `"a\n \n \nb"` one application yields `"a\n\n\nb"` (stripping
created a new 3-newline run) and a second application yields `"a\n\nb"`. -/
theorem c9_idempotence_counterexample :
    stripTS (collapseNl (stripTS (collapseNl c9Input.data))) ≠
      stripTS (collapseNl c9Input.data) := by
  decide

/-- C9 (amended): each structural-cleanup rule is idempotent on its own —
collapsing 3+-newline runs twice equals collapsing once, and stripping
trailing whitespace twice equals stripping once — but the composite
collapse-then-strip is not idempotent, because stripping trailing whitespace
can create a new run of three or more newlines. -/
theorem c9_cleanup_rules_individually_idempotent (s : List Char) :
    collapseNl (collapseNl s) = collapseNl s ∧ stripTS (stripTS s) = stripTS s :=
  ⟨collapseNl_idem s, stripTS_idem s⟩

/-! ### Claim C2: the score formula -/

theorem max0_sub_max0 (a d : Int) (hd : 0 ≤ d) :
    max 0 (a - d) = max 0 (max 0 a - d) := by
  rcases le_total a 0 with h | h
  · rw [max_eq_left h, max_eq_left (by omega), max_eq_left (by omega)]
  · rw [max_eq_right h]

/-- C2: for every input text and speaker list the validator's score equals
`max(0, 100 − 15·errorCount − 8·warningCount − 3·infoCount)` over the issues
it produced (integer-valued, so rounding is the identity); and on the score
formula itself, one additional error lowers the score by exactly 15, a
warning by 8, and an info by 3, each clamped below at 0. -/
theorem c2_score_formula (content : List Char) (speakers : List SpeakerDef) :
    ((validateTranscript content speakers).score =
      scoreFormula
        (countSev Severity.error (validateTranscript content speakers).issues)
        (countSev Severity.warning (validateTranscript content speakers).issues)
        (countSev Severity.info (validateTranscript content speakers).issues)) ∧
    (∀ e w i : Nat,
      scoreFormula (e + 1) w i = max 0 (scoreFormula e w i - 15) ∧
      scoreFormula e (w + 1) i = max 0 (scoreFormula e w i - 8) ∧
      scoreFormula e w (i + 1) = max 0 (scoreFormula e w i - 3)) := by
  constructor
  · rfl
  · intro e w i
    refine ⟨?_, ?_, ?_⟩ <;>
      · unfold scoreFormula
        rw [← max0_sub_max0 _ _ (by omega)]
        congr 1
        push_cast
        ring

/-! ### Claim C4: header generation is all-or-nothing -/

theorem startsL_self_append (p t : List Char) : startsL p (p ++ t) = true := by
  induction p with
  | nil => rfl
  | cons c ps ih => simp [startsL, ih]

theorem containsL_of_startsL {p s : List Char} (h : startsL p s = true) :
    containsL p s = true := by
  cases s with
  | nil => exact h
  | cons c rest => simp [containsL, h]

theorem header_literal_split :
    ("The following is the transcription of a tape-recorded interview conducted by DETECTIVE ").data =
      headerMarker ++ headerAfterMarker.data := by
  decide

theorem bool_guard_iff (a b c d e : Bool) :
    ((!a || !b || !c || !d || !e) = true) ↔
      ¬(a = true ∧ b = true ∧ c = true ∧ d = true ∧ e = true) := by
  cases a <;> cases b <;> cases c <;> cases d <;> cases e <;> simp

/-- C4: for every date environment, `generateLVMPDHeader` returns the empty
string whenever any one of detective.name, detective.badge,
detective.section, interview.date, interview.time is missing or empty; when
all five are present it returns a non-empty string containing the literal
substring `"The following is the transcription of a tape-recorded
interview"`. -/
theorem c4_header_all_or_nothing (jsDate : String → Nat × Nat × Nat)
    (det : DetectiveInfo) (intv : InterviewInfo) :
    (¬(truthyStr det.name = true ∧ truthyStr det.badge = true ∧
        truthyStr det.section_ = true ∧ truthyStr intv.date = true ∧
        truthyStr intv.time = true) →
      generateLVMPDHeader jsDate det intv = []) ∧
    ((truthyStr det.name = true ∧ truthyStr det.badge = true ∧
        truthyStr det.section_ = true ∧ truthyStr intv.date = true ∧
        truthyStr intv.time = true) →
      generateLVMPDHeader jsDate det intv ≠ [] ∧
        containsL headerMarker (generateLVMPDHeader jsDate det intv) = true) := by
  constructor
  · intro hmiss
    unfold generateLVMPDHeader
    rw [if_pos ((bool_guard_iff _ _ _ _ _).mpr hmiss)]
  · intro hall
    have hcond : (!truthyStr det.name || !truthyStr det.badge ||
        !truthyStr det.section_ || !truthyStr intv.date || !truthyStr intv.time) = false := by
      rcases hall with ⟨h1, h2, h3, h4, h5⟩
      rw [h1, h2, h3, h4, h5]
      rfl
    have hshape : generateLVMPDHeader jsDate det intv =
        headerMarker ++ (headerAfterMarker.data ++
          ((det.name.getD ("")).data ++ (", P# ").data ++
            (det.badge.getD ("")).data ++ (", LVMPD ").data ++
            (det.section_.getD ("")).data ++ (" Detail, on ").data ++
            (padStart2 (toString ((jsDate (intv.date.getD (""))).1 + 1)).data ++
              '/' :: padStart2 (toString (jsDate (intv.date.getD (""))).2.1).data ++
              '/' :: (toString (jsDate (intv.date.getD (""))).2.2).data) ++
            (" at ").data ++ removeFirstColon (intv.time.getD ("")).data ++
            (" hours.\n\n").data)) := by
      unfold generateLVMPDHeader
      rw [if_neg (by rw [hcond]; exact Bool.false_ne_true)]
      rw [header_literal_split]
      simp
    have hstarts : startsL headerMarker (generateLVMPDHeader jsDate det intv) = true := by
      rw [hshape]; exact startsL_self_append _ _
    constructor
    · intro hnil
      rw [hnil] at hstarts
      exact absurd hstarts (by decide)
    · exact containsL_of_startsL hstarts

theorem c4_header_all_or_nothing_witness :
    (generateLVMPDHeader c4DateFn c4DetFull c4Intv ≠ [] ∧
      containsL headerMarker (generateLVMPDHeader c4DateFn c4DetFull c4Intv) = true) ∧
    generateLVMPDHeader c4DateFn c4DetNoName c4Intv = [] :=
  ⟨(c4_header_all_or_nothing c4DateFn c4DetFull c4Intv).2
      ⟨by decide, by decide, by decide, by decide, by decide⟩,
   (c4_header_all_or_nothing c4DateFn c4DetNoName c4Intv).1
      (fun h => absurd h.1 (by decide))⟩

/-! ### Per-check and per-line lemmas for the validator -/

theorem mem_checkSpeaker {sp : List SpeakerDef} {l : List Char} {n : Nat}
    {is : ValidationIssue} (h : is ∈ checkSpeaker sp l n) :
    is.type = "speaker_identification" ∧ is.line = n := by
  unfold checkSpeaker at h
  split at h <;> simp_all

theorem mem_checkDiscourse {l : List Char} {n : Nat} {is : ValidationIssue}
    (h : is ∈ checkDiscourse l n) : is.type = "discourse_marker" ∧ is.line = n := by
  unfold checkDiscourse at h
  split at h <;> simp_all

theorem mem_checkNumber {l : List Char} {n : Nat} {is : ValidationIssue}
    (h : is ∈ checkNumber l n) : is.type = "number_format" ∧ is.line = n := by
  unfold checkNumber at h
  split at h <;> simp_all

theorem mem_checkTime {l : List Char} {n : Nat} {is : ValidationIssue}
    (h : is ∈ checkTime l n) : is.type = "time_format" ∧ is.line = n := by
  unfold checkTime at h
  split at h <;> simp_all

theorem mem_checkOrdinal {l : List Char} {n : Nat} {is : ValidationIssue}
    (h : is ∈ checkOrdinal l n) : is.type = "date_format" ∧ is.line = n := by
  unfold checkOrdinal at h
  split at h <;> simp_all

theorem mem_checkPunct {l : List Char} {n : Nat} {is : ValidationIssue}
    (h : is ∈ checkPunct l n) : is.type = "punctuation" ∧ is.line = n := by
  unfold checkPunct at h
  split at h <;> simp_all

theorem mem_checkCap {l : List Char} {n : Nat} {is : ValidationIssue}
    (h : is ∈ checkCap l n) : is.type = "capitalization" ∧ is.line = n := by
  unfold checkCap at h
  split at h <;> simp_all

theorem any_eq_false_iff {α : Type} {p : α → Bool} {l : List α} :
    l.any p = false ↔ ∀ x ∈ l, p x = false := by
  constructor
  · intro h x hx
    cases hpx : p x
    · rfl
    · rw [List.any_eq_true.mpr ⟨x, hx, hpx⟩] at h
      cases h
  · intro h
    cases hany : l.any p
    · rfl
    · obtain ⟨x, hx, hpx⟩ := List.any_eq_true.mp hany
      rw [h x hx] at hpx
      cases hpx

theorem not_eq_true_to_false {b : Bool} (h : (!b) = true) : b = false := by
  cases b
  · rfl
  · cases h

theorem mem_lineIssues_line {sp : List SpeakerDef} {l : List Char} {n : Nat}
    {is : ValidationIssue} (h : is ∈ lineIssues sp l n) : is.line = n := by
  simp only [lineIssues, List.mem_append] at h
  rcases h with ((((((h | h) | h) | h) | h) | h) | h)
  · exact (mem_checkSpeaker h).2
  · exact (mem_checkDiscourse h).2
  · exact (mem_checkNumber h).2
  · exact (mem_checkTime h).2
  · exact (mem_checkOrdinal h).2
  · exact (mem_checkPunct h).2
  · exact (mem_checkCap h).2

/-- A `number_format` issue is produced for a line exactly when the line's
text matches `\b[1-9]|10\b`. -/
theorem lineIssues_number_iff (sp : List SpeakerDef) (l : List Char) (n : Nat) :
    (∃ is ∈ lineIssues sp l n, is.type = "number_format") ↔ testNumPat l = true := by
  constructor
  · rintro ⟨is, hmem, htype⟩
    simp only [lineIssues, List.mem_append] at hmem
    rcases hmem with ((((((h | h) | h) | h) | h) | h) | h)
    · exact absurd ((mem_checkSpeaker h).1 ▸ htype) (by decide)
    · exact absurd ((mem_checkDiscourse h).1 ▸ htype) (by decide)
    · unfold checkNumber at h
      split at h <;> simp_all
    · exact absurd ((mem_checkTime h).1 ▸ htype) (by decide)
    · exact absurd ((mem_checkOrdinal h).1 ▸ htype) (by decide)
    · exact absurd ((mem_checkPunct h).1 ▸ htype) (by decide)
    · exact absurd ((mem_checkCap h).1 ▸ htype) (by decide)
  · intro htest
    refine ⟨(⟨n, "number_format", "Numbers 1-10 should be spelled out", none,
      Severity.info⟩ : ValidationIssue), ?_, rfl⟩
    simp only [lineIssues, List.mem_append]
    refine Or.inl (Or.inl (Or.inl (Or.inl (Or.inr ?_))))
    unfold checkNumber
    rw [if_pos htest]
    exact List.mem_singleton.mpr rfl

theorem exists_mem_ite_singleton {α : Type} {c : Prop} [Decidable c] {x : α}
    {P : α → Prop} : (∃ y ∈ (if c then [x] else []), P y) ↔ (c ∧ P x) := by
  by_cases hc : c <;> simp [hc]

/-- Membership characterization for the speaker-identification check. -/
theorem checkSpeaker_mem_iff (sp : List SpeakerDef) (l : List Char) (n : Nat) :
    (∃ is ∈ checkSpeaker sp l n, is.type = "speaker_identification") ↔
      (trimL l ≠ [] ∧ testSentinel l = false ∧
        ∀ d ∈ sp, startsL d.label.data l = false) := by
  unfold checkSpeaker
  rw [exists_mem_ite_singleton]
  constructor
  · rintro ⟨hc, _⟩
    rw [Bool.and_eq_true, Bool.and_eq_true, Bool.and_eq_true] at hc
    obtain ⟨⟨⟨hA, hB⟩, hC⟩, _⟩ := hc
    exact ⟨of_decide_eq_true hA, not_eq_true_to_false hB,
      any_eq_false_iff.mp (not_eq_true_to_false hC)⟩
  · rintro ⟨hA, hB, hC⟩
    refine ⟨?_, rfl⟩
    rw [Bool.and_eq_true, Bool.and_eq_true, Bool.and_eq_true]
    refine ⟨⟨⟨decide_eq_true hA, ?_⟩, ?_⟩, decide_eq_true ?_⟩
    · rw [hB]; rfl
    · rw [any_eq_false_iff.mpr hC]; rfl
    · rcases hx : trimL l with _ | ⟨y, ys⟩
      · exact absurd hx hA
      · simp

/-- A `speaker_identification` warning is produced for a line exactly when
the line is non-empty after trimming, does not match the exemption pattern
`^[A-Z0-9]+:|The following|THIS STATEMENT`, and does not start with any
configured speaker's label. -/
theorem lineIssues_speaker_iff (sp : List SpeakerDef) (l : List Char) (n : Nat) :
    (∃ is ∈ lineIssues sp l n, is.type = "speaker_identification") ↔
      (trimL l ≠ [] ∧ testSentinel l = false ∧
        ∀ d ∈ sp, startsL d.label.data l = false) := by
  rw [← checkSpeaker_mem_iff sp l n]
  constructor
  · rintro ⟨is, hmem, htype⟩
    simp only [lineIssues, List.mem_append] at hmem
    rcases hmem with ((((((h | h) | h) | h) | h) | h) | h)
    · exact ⟨is, h, htype⟩
    · exact absurd ((mem_checkDiscourse h).1 ▸ htype) (by decide)
    · exact absurd ((mem_checkNumber h).1 ▸ htype) (by decide)
    · exact absurd ((mem_checkTime h).1 ▸ htype) (by decide)
    · exact absurd ((mem_checkOrdinal h).1 ▸ htype) (by decide)
    · exact absurd ((mem_checkPunct h).1 ▸ htype) (by decide)
    · exact absurd ((mem_checkCap h).1 ▸ htype) (by decide)
  · rintro ⟨is, hmem, htype⟩
    refine ⟨is, ?_, htype⟩
    simp only [lineIssues, List.mem_append]
    exact Or.inl (Or.inl (Or.inl (Or.inl (Or.inl (Or.inl hmem)))))


/-- Membership in the line loop's issue list, indexed by line position. -/
theorem mem_perLineAux {sp : List SpeakerDef} {is : ValidationIssue} :
    ∀ (ls : List (List Char)) (n : Nat),
      is ∈ perLineAux sp n ls ↔
        ∃ j, ∃ hj : j < ls.length, is ∈ lineIssues sp (ls.get ⟨j, hj⟩) (n + j) := by
  intro ls
  induction ls with
  | nil => intro n; simp [perLineAux]
  | cons l rest ih =>
    intro n
    unfold perLineAux
    rw [List.mem_append]
    constructor
    · rintro (h | h)
      · exact ⟨0, by simp, by simpa using h⟩
      · obtain ⟨j, hj, hmem⟩ := (ih (n + 1)).mp h
        refine ⟨j + 1, by simpa using hj, ?_⟩
        have : n + 1 + j = n + (j + 1) := by omega
        rw [this] at hmem
        simpa using hmem
    · rintro ⟨j, hj, hmem⟩
      cases j with
      | zero => exact Or.inl (by simpa using hmem)
      | succ j' =>
        refine Or.inr ((ih (n + 1)).mpr ⟨j', by simpa using hj, ?_⟩)
        have : n + (j' + 1) = n + 1 + j' := by omega
        rw [this] at hmem
        simpa using hmem

theorem mem_docIssues {content : List Char} {lines : List (List Char)}
    {is : ValidationIssue} (h : is ∈ docIssues content lines) :
    (is.type = "header" ∧ is.line = 1) ∨
      (is.type = "footer" ∧ is.line = lines.length) := by
  unfold docIssues at h
  rcases List.mem_append.mp h with h | h <;> [skip; skip] <;> split at h <;> simp_all

/-! ### Claim C5: issue ordering -/

theorem line_ge_of_mem_perLineAux {sp : List SpeakerDef} {is : ValidationIssue} :
    ∀ (ls : List (List Char)) (n : Nat), is ∈ perLineAux sp n ls → n ≤ is.line := by
  intro ls
  induction ls with
  | nil => intro n h; simp [perLineAux] at h
  | cons l rest ih =>
    intro n h
    unfold perLineAux at h
    rcases List.mem_append.mp h with h | h
    · exact le_of_eq (mem_lineIssues_line h).symm
    · exact le_trans (by omega) (ih (n + 1) h)

theorem pairwise_of_const_line :
    ∀ (L : List ValidationIssue) (n : Nat), (∀ x ∈ L, x.line = n) →
      L.Pairwise (fun a b => a.line ≤ b.line) := by
  intro L
  induction L with
  | nil => intro n _; exact List.Pairwise.nil
  | cons x xs ih =>
    intro n h
    refine List.Pairwise.cons ?_ (ih n (fun y hy => h y (List.mem_cons_of_mem x hy)))
    intro y hy
    rw [h x (List.mem_cons_self x xs), h y (List.mem_cons_of_mem x hy)]

theorem perLineAux_pairwise (sp : List SpeakerDef) :
    ∀ (ls : List (List Char)) (n : Nat),
      (perLineAux sp n ls).Pairwise (fun a b => a.line ≤ b.line) := by
  intro ls
  induction ls with
  | nil => intro n; simp [perLineAux]
  | cons l rest ih =>
    intro n
    unfold perLineAux
    rw [List.pairwise_append]
    refine ⟨pairwise_of_const_line _ n (fun x hx => mem_lineIssues_line hx),
      ih (n + 1), ?_⟩
    intro x hx y hy
    rw [mem_lineIssues_line hx]
    exact le_trans (by omega) (line_ge_of_mem_perLineAux rest (n + 1) hy)

theorem linesAscending_of_pairwise :
    ∀ {l : List Nat}, l.Pairwise (· ≤ ·) → linesAscending l = true := by
  intro l h
  induction l with
  | nil => rfl
  | cons a rest ih =>
    cases rest with
    | nil => rfl
    | cons b rest2 =>
      rw [List.pairwise_cons] at h
      unfold linesAscending
      rw [Bool.and_eq_true]
      exact ⟨decide_eq_true (h.1 b (List.mem_cons_self b rest2)), ih h.2⟩

/-- C5 (counterexample): on the input `"hello\nworld"` with no speakers, the
validator's issue sequence has line numbers `[1, 2, 1, 2]` — two
speaker-identification warnings at lines 1 and 2 followed by the header
issue at line 1 and the footer issue at line 2 — which is not ascending. -/
theorem c5_issue_order_counterexample :
    ((validateTranscript c5Input.data []).issues.map (fun is => is.line)) =
        [1, 2, 1, 2] ∧
      linesAscending
        ((validateTranscript c5Input.data []).issues.map (fun is => is.line)) =
        false :=
  ⟨by decide, by decide⟩

/-- C5 (amended): the issue sequence is the per-line issues — which ARE in
ascending line order — followed by the document-level issues appended at the
end: a header issue at line 1 and/or a footer issue at the last line number.
Because the document-level issues come after the per-line issues, the full
sequence need not be sorted by line. -/
theorem c5_issue_order_amended (content : List Char) (speakers : List SpeakerDef) :
    ((validateTranscript content speakers).issues =
        perLineAux speakers 1 (splitNl content) ++
          docIssues content (splitNl content)) ∧
    linesAscending
        ((perLineAux speakers 1 (splitNl content)).map (fun is => is.line)) = true ∧
    (docIssues content (splitNl content)).all
        (fun is => (is.type == "header" && is.line == 1) ||
          (is.type == "footer" && is.line == (splitNl content).length)) = true := by
  refine ⟨rfl, ?_, ?_⟩
  · refine linesAscending_of_pairwise ?_
    rw [List.pairwise_map]
    exact perLineAux_pairwise speakers (splitNl content) 1
  · cases hH : containsL headerMarker content <;>
      cases hF : containsL footerMarker content <;>
        simp [docIssues, hH, hF]

/-! ### Claim C6: the number-format check -/

/-- C6 (counterexample): the line `"25"` contains no whole-word digit token
with value between 1 and 10, yet the validator emits a `number_format` issue
for it: the source regex `\b[1-9]|10\b` groups as `(\b[1-9])|(10\b)`, so the
`2` of `25` matches. -/
theorem c6_number_flag_counterexample :
    hasWholeWordNum1to10 c6Input.data = false ∧
      ((validateTranscript c6Input.data []).issues.any
        (fun is => is.type == "number_format" && is.line == 1)) = true :=
  ⟨by decide, by decide⟩

/-- C6 (amended): the validator appends a `number_format` issue of severity
info for a line if and only if the line matches `\b[1-9]|10\b`, i.e. it
contains a digit 1–9 immediately preceded by a word boundary, or the
substring `10` immediately followed by a word boundary.  (Lines whose only
numbers are ≥ 11 are thus also flagged whenever such a number starts with a
nonzero digit.) -/
theorem c6_number_flag_iff (content : List Char) (speakers : List SpeakerDef)
    (k : Nat) (hk : k < (splitNl content).length) :
    (∃ is ∈ (validateTranscript content speakers).issues,
        is.type = "number_format" ∧ is.line = k + 1) ↔
      testNumPat ((splitNl content).get ⟨k, hk⟩) = true := by
  constructor
  · rintro ⟨is, hmem, htype, hline⟩
    have hmem' : is ∈ perLineAux speakers 1 (splitNl content) ++
        docIssues content (splitNl content) := hmem
    rcases List.mem_append.mp hmem' with h | h
    · obtain ⟨j, hj, hmem2⟩ := (mem_perLineAux _ _).mp h
      have hlinej : is.line = 1 + j := mem_lineIssues_line hmem2
      have hjk : j = k := by omega
      subst hjk
      exact (lineIssues_number_iff speakers _ _).mp ⟨is, hmem2, htype⟩
    · rcases mem_docIssues h with ⟨ht, _⟩ | ⟨ht, _⟩ <;>
        · rw [ht] at htype
          exact absurd htype (by decide)
  · intro htest
    obtain ⟨is, hmem, htype⟩ := (lineIssues_number_iff speakers _ (1 + k)).mpr htest
    refine ⟨is, ?_, htype, by rw [mem_lineIssues_line hmem]; omega⟩
    show is ∈ perLineAux speakers 1 (splitNl content) ++
      docIssues content (splitNl content)
    exact List.mem_append.mpr (Or.inl ((mem_perLineAux _ _).mpr ⟨k, hk, hmem⟩))

theorem c6_number_flag_iff_witness :
    0 < (splitNl c6WitnessInput.data).length ∧
      (∃ is ∈ (validateTranscript c6WitnessInput.data []).issues,
        is.type = "number_format" ∧ is.line = 0 + 1) :=
  ⟨by decide,
   (c6_number_flag_iff c6WitnessInput.data [] 0 (by decide)).mpr (by decide)⟩

/-! ### Claim C7: the speaker-identification check -/

/-- C7 (counterexample): the line `"X: foo"`, validated with an empty speaker
list, is non-empty after trimming and contains neither the header nor the
footer sentinel text, and it starts with no configured speaker's label (none
are configured) — yet the validator emits no `speaker_identification`
warning, because the exemption regex `^[A-Z0-9]+:|The following|THIS
STATEMENT` accepts any uppercase-or-digit label prefix. -/
theorem c7_speaker_warning_counterexample :
    trimL c7Input.data ≠ [] ∧
      containsL headerMarker c7Input.data = false ∧
      containsL footerMarker c7Input.data = false ∧
      ((validateTranscript c7Input.data []).issues.all
        (fun is => !(is.type == "speaker_identification"))) = true :=
  ⟨by decide, by decide, by decide, by decide⟩

/-- C7 (amended): the validator emits a `speaker_identification` warning for
a line if and only if the line is non-empty after trimming, does NOT match
the exemption pattern `^[A-Z0-9]+:|The following|THIS STATEMENT` (any
uppercase/digit label prefix, or either sentinel substring anywhere in the
line), and does not start with the label of any configured speaker. -/
theorem c7_speaker_warning_iff (content : List Char) (speakers : List SpeakerDef)
    (k : Nat) (hk : k < (splitNl content).length) :
    (∃ is ∈ (validateTranscript content speakers).issues,
        is.type = "speaker_identification" ∧ is.line = k + 1) ↔
      (trimL ((splitNl content).get ⟨k, hk⟩) ≠ [] ∧
        testSentinel ((splitNl content).get ⟨k, hk⟩) = false ∧
        ∀ d ∈ speakers,
          startsL d.label.data ((splitNl content).get ⟨k, hk⟩) = false) := by
  constructor
  · rintro ⟨is, hmem, htype, hline⟩
    have hmem' : is ∈ perLineAux speakers 1 (splitNl content) ++
        docIssues content (splitNl content) := hmem
    rcases List.mem_append.mp hmem' with h | h
    · obtain ⟨j, hj, hmem2⟩ := (mem_perLineAux _ _).mp h
      have hlinej : is.line = 1 + j := mem_lineIssues_line hmem2
      have hjk : j = k := by omega
      subst hjk
      exact (lineIssues_speaker_iff speakers _ _).mp ⟨is, hmem2, htype⟩
    · rcases mem_docIssues h with ⟨ht, _⟩ | ⟨ht, _⟩ <;>
        · rw [ht] at htype
          exact absurd htype (by decide)
  · intro hrhs
    obtain ⟨is, hmem, htype⟩ :=
      (lineIssues_speaker_iff speakers _ (1 + k)).mpr hrhs
    refine ⟨is, ?_, htype, by rw [mem_lineIssues_line hmem]; omega⟩
    show is ∈ perLineAux speakers 1 (splitNl content) ++
      docIssues content (splitNl content)
    exact List.mem_append.mpr (Or.inl ((mem_perLineAux _ _).mpr ⟨k, hk, hmem⟩))

theorem c7_speaker_warning_iff_witness :
    0 < (splitNl c7WitnessInput.data).length ∧
      (∃ is ∈ (validateTranscript c7WitnessInput.data []).issues,
        is.type = "speaker_identification" ∧ is.line = 0 + 1) :=
  ⟨by decide,
   (c7_speaker_warning_iff c7WitnessInput.data [] 0 (by decide)).mpr
     ⟨by decide, by decide, by simp⟩⟩

/-! ### Claim C8: ledger accuracy of the rewrite engine -/

theorem applyRulesList_append_singleton (rs : List PRule) (r : PRule)
    (content : List Char) :
    applyRulesList (rs ++ [r]) content = processStep (applyRulesList rs content) r := by
  unfold applyRulesList
  rw [List.foldl_append]
  rfl

theorem take_succ_get {α : Type} (l : List α) (i : Nat) (hi : i < l.length) :
    l.take (i + 1) = l.take i ++ [l.get ⟨i, hi⟩] := by
  rw [List.take_succ, List.getElem?_eq_getElem hi]
  rfl

/-- The ledger after one engine step: the rule is appended, with its match
count, exactly when its pattern matched the current text and its substitution
changed that text. -/
theorem processStep_snd (st : List Char × List (PRule × Nat)) (r : PRule) :
    (processStep st r).2 =
      st.2 ++
        (if 0 < (r.run st.1).2 ∧ (r.run st.1).1 ≠ st.1
         then [(r, (r.run st.1).2)] else []) := by
  unfold processStep
  by_cases hm : 0 < (r.run st.1).2
  · rw [if_pos hm]
    by_cases hne : (r.run st.1).1 ≠ st.1
    · rw [if_pos hne, if_pos ⟨hm, hne⟩]
    · rw [if_neg hne, if_neg (fun h => hne h.2)]
      simp
  · rw [if_neg hm, if_neg (fun h => hm h.1)]
    simp

theorem c8_ledger_step (rules : List PRule) (content : List Char) (i : Nat)
    (hi : i < rules.length) :
    engineLedgerAt rules content (i + 1) =
      engineLedgerAt rules content i ++
        (if 0 < ((rules.get ⟨i, hi⟩).run (engineTextAt rules content i)).2 ∧
            ((rules.get ⟨i, hi⟩).run (engineTextAt rules content i)).1 ≠
              engineTextAt rules content i
         then [(rules.get ⟨i, hi⟩,
                ((rules.get ⟨i, hi⟩).run (engineTextAt rules content i)).2)]
         else []) := by
  unfold engineLedgerAt engineTextAt
  rw [take_succ_get rules i hi, applyRulesList_append_singleton]
  exact processStep_snd _ _

/-- Every entry of the final ledger arose at a step whose rule, at the text
state the engine held just before that step, matched and changed the text. -/
theorem ledger_entry_changed_state (content : List Char) :
    ∀ (rules : List PRule), ∀ e ∈ (applyRulesList rules content).2,
      ∃ i, ∃ hi : i < rules.length,
        e.1 = rules.get ⟨i, hi⟩ ∧
        0 < (e.1.run (engineTextAt rules content i)).2 ∧
        (e.1.run (engineTextAt rules content i)).1 ≠ engineTextAt rules content i ∧
        e.2 = (e.1.run (engineTextAt rules content i)).2 := by
  intro rules
  induction rules using List.reverseRecOn with
  | nil => intro e he; exact absurd he (List.not_mem_nil e)
  | append_singleton rs r ih =>
    intro e he
    rw [applyRulesList_append_singleton, processStep_snd] at he
    rcases List.mem_append.mp he with h | h
    · obtain ⟨i, hi, h1, h2, h3, h4⟩ := ih e h
      have hi2 : i < (rs ++ [r]).length := by
        rw [List.length_append, List.length_singleton]
        omega
      have hstate : engineTextAt (rs ++ [r]) content i = engineTextAt rs content i := by
        unfold engineTextAt
        rw [List.take_append_of_le_length (le_of_lt hi)]
      refine ⟨i, hi2, ?_, ?_, ?_, ?_⟩
      · rw [h1, List.get_append i hi]
      · rw [hstate]; exact h2
      · rw [hstate]; exact h3
      · rw [hstate]; exact h4
    · by_cases hc : 0 < (r.run (applyRulesList rs content).1).2 ∧
          (r.run (applyRulesList rs content).1).1 ≠ (applyRulesList rs content).1
      · rw [if_pos hc, List.mem_singleton] at h
        subst h
        have hi2 : rs.length < (rs ++ [r]).length := by
          rw [List.length_append, List.length_singleton]
          omega
        have hstate : engineTextAt (rs ++ [r]) content rs.length =
            (applyRulesList rs content).1 := by
          unfold engineTextAt
          rw [List.take_left]
        have hget : (rs ++ [r]).get ⟨rs.length, hi2⟩ = r := by simp
        refine ⟨rs.length, hi2, ?_, ?_, ?_, ?_⟩
        · rw [hget]
        · rw [hstate]; exact hc.1
        · rw [hstate]; exact hc.2
        · rw [hstate]
      · rw [if_neg hc] at h
        exact absurd h (List.not_mem_nil e)

/-- C8: a rule appears in the applied-rules ledger only when its substitution
actually altered the text it saw.  Part 1: at every step `i`, the ledger is
extended with the `i`-th rule (and its match count) exactly when that rule's
pattern matched the engine's current text — the text held just before step
`i` — AND the substitution changed it; in particular a rule whose pattern
matches the current text but whose replacement is textually identical is not
recorded.  Part 2: every entry of the final ledger records a rule that, at
the text state the engine actually held at its step, had a positive match
count and changed the text, with exactly that match count recorded. -/
theorem c8_ledger_accuracy (rules : List PRule) (content : List Char) :
    (∀ (i : Nat) (hi : i < rules.length),
      engineLedgerAt rules content (i + 1) =
        engineLedgerAt rules content i ++
          (if 0 < ((rules.get ⟨i, hi⟩).run (engineTextAt rules content i)).2 ∧
              ((rules.get ⟨i, hi⟩).run (engineTextAt rules content i)).1 ≠
                engineTextAt rules content i
           then [(rules.get ⟨i, hi⟩,
                  ((rules.get ⟨i, hi⟩).run (engineTextAt rules content i)).2)]
           else [])) ∧
    (∀ e ∈ (applyRulesList rules content).2,
      ∃ i, ∃ hi : i < rules.length,
        e.1 = rules.get ⟨i, hi⟩ ∧
        0 < (e.1.run (engineTextAt rules content i)).2 ∧
        (e.1.run (engineTextAt rules content i)).1 ≠ engineTextAt rules content i ∧
        e.2 = (e.1.run (engineTextAt rules content i)).2) :=
  ⟨fun i hi => c8_ledger_step rules content i hi,
   fun e he => ledger_entry_changed_state content rules e he⟩

theorem c8_ledger_accuracy_witness :
    (engineLedgerAt (sortByPriority LVMPD_PROCESSING_RULES) c8WitnessInput.data (1 + 1) =
      engineLedgerAt (sortByPriority LVMPD_PROCESSING_RULES) c8WitnessInput.data 1 ++
        (if 0 < (((sortByPriority LVMPD_PROCESSING_RULES).get (Fin.mk 1 (by decide))).run
              (engineTextAt (sortByPriority LVMPD_PROCESSING_RULES)
                c8WitnessInput.data 1)).2 ∧
            (((sortByPriority LVMPD_PROCESSING_RULES).get (Fin.mk 1 (by decide))).run
              (engineTextAt (sortByPriority LVMPD_PROCESSING_RULES)
                c8WitnessInput.data 1)).1 ≠
              engineTextAt (sortByPriority LVMPD_PROCESSING_RULES) c8WitnessInput.data 1
         then [((sortByPriority LVMPD_PROCESSING_RULES).get (Fin.mk 1 (by decide)),
                (((sortByPriority LVMPD_PROCESSING_RULES).get (Fin.mk 1 (by decide))).run
                  (engineTextAt (sortByPriority LVMPD_PROCESSING_RULES)
                    c8WitnessInput.data 1)).2)]
         else [])) ∧
    (∃ i, ∃ hi : i < (sortByPriority LVMPD_PROCESSING_RULES).length,
      (c8WitnessLedger.get (Fin.mk 0 (by decide))).1 =
        (sortByPriority LVMPD_PROCESSING_RULES).get ⟨i, hi⟩ ∧
      0 < ((c8WitnessLedger.get (Fin.mk 0 (by decide))).1.run
        (engineTextAt (sortByPriority LVMPD_PROCESSING_RULES) c8WitnessInput.data i)).2 ∧
      ((c8WitnessLedger.get (Fin.mk 0 (by decide))).1.run
        (engineTextAt (sortByPriority LVMPD_PROCESSING_RULES) c8WitnessInput.data i)).1 ≠
        engineTextAt (sortByPriority LVMPD_PROCESSING_RULES) c8WitnessInput.data i ∧
      (c8WitnessLedger.get (Fin.mk 0 (by decide))).2 =
        ((c8WitnessLedger.get (Fin.mk 0 (by decide))).1.run
          (engineTextAt (sortByPriority LVMPD_PROCESSING_RULES) c8WitnessInput.data i)).2) :=
  ⟨(c8_ledger_accuracy (sortByPriority LVMPD_PROCESSING_RULES) c8WitnessInput.data).1 1
      (by decide),
   (c8_ledger_accuracy (sortByPriority LVMPD_PROCESSING_RULES) c8WitnessInput.data).2
      (c8WitnessLedger.get (Fin.mk 0 (by decide))) (List.get_mem _ _ _)⟩

/-! ### Claim C10: blank-line discipline of the structural formatter -/

theorem speakerLineTest_ne_nil {x : List Char} (h : speakerLineTest x = true) :
    x ≠ [] := by
  cases x
  · cases h
  · exact List.cons_ne_nil _ _

theorem noTwoBlanks_of_okLines :
    ∀ {L : List (List Char)}, okLines L = true → noTwoBlanks L = true := by
  intro L h
  induction L with
  | nil => rfl
  | cons a rest ih =>
    cases rest with
    | nil => rfl
    | cons b rest2 =>
      unfold okLines at h
      rw [Bool.and_eq_true] at h
      unfold noTwoBlanks
      rw [Bool.and_eq_true]
      refine ⟨?_, ih h.2⟩
      by_cases ha : a = []
      · have hb : speakerLineTest b = true := by
          have := h.1
          rw [if_pos ha] at this
          simpa using this
        have hbne : b ≠ [] := speakerLineTest_ne_nil hb
        simp [ha, hbne]
      · simp [ha]

theorem getLast?_ne_of_all_ne_nil :
    ∀ {L : List (List Char)}, (∀ x ∈ L, x ≠ []) → L.getLast? ≠ some [] := by
  intro L
  induction L with
  | nil => intro _ h; cases h
  | cons x rest ih =>
    intro h
    rcases hr : rest with _ | ⟨y, t⟩
    · subst hr
      intro hlast
      rw [List.getLast?_singleton] at hlast
      injection hlast with h2
      exact h x (List.mem_cons_self _ _) h2
    · subst hr
      rw [List.getLast?_cons_cons]
      exact ih (fun z hz => h z (List.mem_cons_of_mem x hz))

theorem getLast?_append_right {α : Type} (A : List α) {B : List α} (hB : B ≠ []) :
    (A ++ B).getLast? = B.getLast? := by
  induction A with
  | nil => rfl
  | cons x A' ih =>
    rcases hAB : A' ++ B with _ | ⟨y, t⟩
    · rcases List.append_eq_nil.mp hAB with ⟨_, h2⟩
      exact absurd h2 hB
    · show (x :: (A' ++ B)).getLast? = B.getLast?
      rw [hAB, List.getLast?_cons_cons, ← hAB, ih]

theorem okLines_of_all_ne_nil :
    ∀ {L : List (List Char)}, (∀ x ∈ L, x ≠ []) → okLines L = true := by
  intro L h
  induction L with
  | nil => rfl
  | cons x rest ih =>
    unfold okLines
    rw [Bool.and_eq_true]
    refine ⟨?_, ih (fun y hy => h y (List.mem_cons_of_mem x hy))⟩
    rw [if_neg (h x (List.mem_cons_self x rest))]

theorem okLines_append : ∀ {A B : List (List Char)}, okLines A = true →
    A.getLast? ≠ some [] → okLines B = true → okLines (A ++ B) = true := by
  intro A
  induction A with
  | nil => intro B _ _ hB; simpa using hB
  | cons x A' ih =>
    intro B hA hAlast hB
    rw [List.cons_append]
    unfold okLines at hA ⊢
    rw [Bool.and_eq_true] at hA ⊢
    rcases hA' : A' with _ | ⟨y, A''⟩
    · subst hA'
      have hxne : x ≠ [] := by
        intro hx
        refine hAlast ?_
        rw [hx, List.getLast?_singleton]
      exact ⟨by rw [if_neg hxne], by simpa using hB⟩
    · subst hA'
      have hlast' : (y :: A'').getLast? ≠ some [] := by
        rw [List.getLast?_cons_cons] at hAlast
        exact hAlast
      refine ⟨?_, ih hA.2 hlast' hB⟩
      by_cases hx : x = []
      · rw [if_pos hx]
        have h1 := hA.1
        rw [if_pos hx] at h1
        simpa using h1
      · rw [if_neg hx]

theorem speakerMatch_upper {t : List Char} {sp : Char} {content : List Char}
    (h : speakerMatch t = some (sp, content)) : upperChar sp = true := by
  rcases t with _ | ⟨a, _ | ⟨b, rest⟩⟩
  · exact absurd h (by simp [speakerMatch])
  · exact absurd h (by simp [speakerMatch])
  · have heq : speakerMatch (a :: b :: rest) =
        (if (upperChar a && decide (b = ':')) = true then some (a, rest) else none) := rfl
    rw [heq] at h
    by_cases hc : (upperChar a && decide (b = ':')) = true
    · rw [if_pos hc] at h
      injection h with h2
      have ha : a = sp := congrArg Prod.fst h2
      rw [← ha]
      rw [Bool.and_eq_true] at hc
      exact hc.1
    · rw [if_neg hc] at h
      cases h

/-- The two invariants carried through the structural formatter's loop. -/
theorem structAux_ok :
    ∀ (ls : List (List Char)) (prev : List Char) (acc : List (List Char)),
      okLines acc = true → acc.getLast? ≠ some [] →
      okLines (structAux ls prev acc) = true ∧
        (structAux ls prev acc).getLast? ≠ some [] := by
  intro ls
  induction ls with
  | nil => intro prev acc h1 h2; exact ⟨h1, h2⟩
  | cons l rest ih =>
    intro prev acc h1 h2
    unfold structAux
    by_cases ht : trimL l = []
    · rw [if_pos ht]
      exact ih prev acc h1 h2
    · rw [if_neg ht]
      cases hsm : speakerMatch (trimL l) with
      | none =>
        refine ih prev _ ?_ ?_
        · refine okLines_append h1 h2 ?_
          refine okLines_of_all_ne_nil ?_
          intro x hx
          rw [List.mem_singleton] at hx
          subst hx
          split
          · exact List.cons_ne_nil _ _
          · exact ht
        · rw [getLast?_append_right acc (List.cons_ne_nil _ _)]
          refine getLast?_ne_of_all_ne_nil ?_
          intro x hx
          rw [List.mem_singleton] at hx
          subst hx
          split
          · exact List.cons_ne_nil _ _
          · exact ht
      | some pair =>
        obtain ⟨sp, content⟩ := pair
        have hupper : upperChar sp = true := speakerMatch_upper hsm
        -- the non-blank output lines of this iteration
        have hlines :
            ∀ (lns : List (List Char)),
              (lns = (if trimL content ≠ [] then
                  (sp :: ':' :: ' ' :: (splitSentences (trimL content)).headD []) ::
                    (((splitSentences (trimL content)).drop 1).filter
                      (fun sj => trimL sj ≠ [])).map (fun sj => fiveSpaces ++ sj)
                else [[sp, ':']])) →
              (∀ x ∈ lns, x ≠ []) ∧ speakerLineTest (lns.headD []) = true ∧
                lns ≠ [] := by
          intro lns hdef
          by_cases hc : trimL content ≠ []
          · rw [if_pos hc] at hdef
            subst hdef
            refine ⟨?_, ?_, List.cons_ne_nil _ _⟩
            · intro x hx
              rcases List.mem_cons.mp hx with h | h
              · subst h; exact List.cons_ne_nil _ _
              · obtain ⟨sj, _, hmap⟩ := List.mem_map.mp h
                rw [← hmap]
                exact List.cons_ne_nil _ _
            · show speakerLineTest (sp :: ':' :: _) = true
              unfold speakerLineTest
              rw [Bool.and_eq_true]
              exact ⟨hupper, by rfl⟩
          · rw [if_neg hc] at hdef
            subst hdef
            refine ⟨?_, ?_, List.cons_ne_nil _ _⟩
            · intro x hx
              rw [List.mem_singleton] at hx
              subst hx
              exact List.cons_ne_nil _ _
            · show speakerLineTest [sp, ':'] = true
              unfold speakerLineTest
              rw [Bool.and_eq_true]
              exact ⟨hupper, by rfl⟩
        obtain ⟨hne, hhead, hlnsne⟩ := hlines _ rfl
        set lns := (if trimL content ≠ [] then
            (sp :: ':' :: ' ' :: (splitSentences (trimL content)).headD []) ::
              (((splitSentences (trimL content)).drop 1).filter
                (fun sj => trimL sj ≠ [])).map (fun sj => fiveSpaces ++ sj)
          else [[sp, ':']]) with hlnsdef
        have hoklns : okLines lns = true := okLines_of_all_ne_nil hne
        have hblank :
            okLines ((if acc ≠ [] && [sp] ≠ prev then [[]] else []) ++ lns) = true := by
          by_cases hb : (acc ≠ [] && [sp] ≠ prev) = true
          · rw [if_pos hb]
            rcases hl : lns with _ | ⟨x, lrest⟩
            · exact absurd hl hlnsne
            · show okLines ([] :: x :: lrest) = true
              unfold okLines
              rw [Bool.and_eq_true, if_pos rfl]
              constructor
              · show speakerLineTest x = true
                have : lns.headD [] = x := by rw [hl]; rfl
                rw [← this]
                exact hhead
              · rw [← hl]
                exact hoklns
          · rw [if_neg hb]
            simpa using hoklns
        have hblanklast :
            ((if acc ≠ [] && [sp] ≠ prev then [[]] else []) ++ lns).getLast? ≠
              some [] := by
          rw [getLast?_append_right _ hlnsne]
          exact getLast?_ne_of_all_ne_nil hne
        refine ih [sp] _ ?_ ?_
        · rw [List.append_assoc]
          exact okLines_append h1 h2 hblank
        · rw [List.append_assoc]
          rw [getLast?_append_right acc (by
            intro hnil
            rcases List.append_eq_nil.mp hnil with ⟨_, h2'⟩
            exact hlnsne h2')]
          exact hblanklast

/-- C10: in the structural formatter's output, every blank line is
immediately followed by a speaker line (a line beginning with a single
uppercase letter plus a colon), and no two consecutive blank lines occur;
every other output line is non-empty. -/
theorem c10_structure_blank_lines (content : List Char) :
    okLines (structLines content) = true ∧
      noTwoBlanks (structLines content) = true := by
  have h := structAux_ok (splitNl content) [] [] (by rfl) (by intro h; cases h)
  exact ⟨h.1, noTwoBlanks_of_okLines h.1⟩

end TranscriptPolish
